import Mathlib

/-
Verification of the encoding-detection, decode-repair and record-normalization
core of the csv2json_xlsx repository (src/2xlsx.js and src/2xlsx2.js).

Modelling conventions:
* a JavaScript string is a `List Char` of Unicode scalar values; where the
  source uses `String.prototype.length` (UTF-16 code units) we use
  `jsUtf16Length`, which counts astral characters twice;
* a byte buffer is a `List Nat` of byte values;
* the external character-set codec collaborator (iconv-lite) is a parameter
  `dec : List Char → List Nat → Option (List Char)` for `iconv.decode` and
  `enc : List Char → List Char → Option (List Nat)` for `iconv.encode`;
  `none` models a thrown codec error, matching the try/catch sites of the
  source;
* the external statistical detector (jschardet) result is a parameter of type
  `Option GuessResult`, `none` modelling a null-ish detection result;
* the external JavaScript `Date` constructor is a parameter
  `dv : List Char → Bool` modelling `!isNaN(new Date(v))`.
-/

namespace Csv2Xlsx

/-- A JavaScript string, as its list of Unicode scalar values. -/
abbrev JsStr := List Char

/-- A byte buffer, as its list of byte values. -/
abbrev Buffer := List Nat

/-- The set of characters removed by `String.prototype.trim`: ECMAScript
white space and line terminators. -/
def isJsWs (c : Char) : Bool :=
  decide (c = '\t' ∨ c = '\n' ∨ c.toNat = 0x0B ∨ c.toNat = 0x0C ∨ c = '\r' ∨
    c = ' ' ∨ c.toNat = 0xA0 ∨ c.toNat = 0x1680 ∨
    (0x2000 ≤ c.toNat ∧ c.toNat ≤ 0x200A) ∨ c.toNat = 0x2028 ∨
    c.toNat = 0x2029 ∨ c.toNat = 0x202F ∨ c.toNat = 0x205F ∨
    c.toNat = 0x3000 ∨ c.toNat = 0xFEFF)

/-- Model of `String.prototype.trim`: drop leading and trailing JavaScript
white space. -/
def jsTrim (l : JsStr) : JsStr :=
  ((l.dropWhile isJsWs).reverse.dropWhile isJsWs).reverse

/-- Model of `value.replace(/[class]/g, '')` for a single-character class
`p`: delete every character satisfying `p`. -/
def jsStripAll (p : Char → Bool) : JsStr → JsStr
  | [] => []
  | c :: rest => if p c then jsStripAll p rest else c :: jsStripAll p rest

/-- Model of `String.prototype.length`: UTF-16 code units, so astral
characters count twice. -/
def jsUtf16Length (t : JsStr) : Nat :=
  (t.map (fun c => if 0x10000 ≤ c.toNat then 2 else 1)).sum

/-- Model of `String.prototype.includes`: `needle` occurs somewhere in the
haystack. -/
def jsIncludes (needle : JsStr) : JsStr → Bool
  | [] => decide (needle = [])
  | c :: rest => decide (needle <+: c :: rest) || jsIncludes needle rest

/-- Model of `String.prototype.replace('-', '')`: remove the first hyphen
only. -/
def removeFirstHyphen : JsStr → JsStr
  | [] => []
  | c :: rest => if c = '-' then rest else c :: removeFirstHyphen rest

/-- Model of `String.prototype.toLowerCase` on the ASCII detector labels the
source manipulates. -/
def jsToLower (t : JsStr) : JsStr := t.map Char.toLower

/-- First-match association lookup, modelling JavaScript object property
access on the literal tables of the source. -/
def assoc (k : JsStr) : List (JsStr × JsStr) → Option JsStr
  | [] => none
  | (k', v) :: rest => if k' = k then some v else assoc k rest

/-! ### src/2xlsx.js, `detectFileEncoding` (lines 9–81) -/

/-- Result of the external statistical detector `jschardet.detect`. -/
structure GuessResult where
  label : JsStr
  confidence : ℚ

/-- The literal `encodingMap` table of `detectFileEncoding`
(src/2xlsx.js lines 56–64). -/
def encodingMap : List (JsStr × JsStr) :=
  [("gb2312".toList, "gbk".toList),
   ("gb18030".toList, "gbk".toList),
   ("windows-1252".toList, "cp1252".toList),
   ("iso-8859-1".toList, "latin1".toList),
   ("ascii".toList, "utf8".toList),
   ("utf-16le".toList, "utf16le".toList),
   ("utf-16be".toList, "utf16be".toList)]

/-- Label normalization of the high-confidence branch of
`detectFileEncoding` (src/2xlsx.js lines 52–76): lower-case the raw label,
apply `encodingMap`, then collapse gb-like labels to `gbk` and strip the
first hyphen of utf-like labels. -/
def normalizeLabel (raw : JsStr) : JsStr :=
  let lowered := jsToLower raw
  let encoding := (assoc lowered encodingMap).getD lowered
  if jsIncludes "gb".toList encoding || jsIncludes "gbk".toList encoding then
    "gbk".toList
  else if jsIncludes "utf".toList encoding then
    jsToLower (removeFirstHyphen encoding)
  else encoding

/-- The `testEncodings` trial list of `detectFileEncoding`
(src/2xlsx.js line 34). -/
def testEncodings : List JsStr :=
  ["utf8".toList, "gbk".toList, "big5".toList, "shift-jis".toList]

/-- The decode/re-encode/compare for-loop of `detectFileEncoding`
(src/2xlsx.js lines 35–46); a codec throw (`none`) continues with the next
candidate, and exhausting the list yields the `utf8` default of line 49. -/
def detectTrial (dec : JsStr → Buffer → Option JsStr)
    (enc : JsStr → JsStr → Option Buffer) (buffer : Buffer) :
    List JsStr → JsStr
  | [] => "utf8".toList
  | e :: rest =>
    match dec e buffer with
    | some decoded =>
      match enc e decoded with
      | some reEncoded =>
        if reEncoded = buffer then e else detectTrial dec enc buffer rest
      | none => detectTrial dec enc buffer rest
    | none => detectTrial dec enc buffer rest

/-- The guard `!result || result.confidence < 0.85` of src/2xlsx.js
line 16. -/
def lowConfidence : Option GuessResult → Bool
  | none => true
  | some r => decide (r.confidence < 85 / 100)

/-- Model of `detectFileEncoding` (src/2xlsx.js lines 9–81), with the
statistical-detector result and the codec passed as the external
collaborators they are.  The BOM checks are the inline conditionals of
lines 18–31, guarded by `buffer.length >= 3`. -/
def detectFileEncoding (dec : JsStr → Buffer → Option JsStr)
    (enc : JsStr → JsStr → Option Buffer) (buffer : Buffer)
    (guess : Option GuessResult) : JsStr :=
  if lowConfidence guess then
    match buffer with
    | b0 :: b1 :: b2 :: _ =>
      if b0 = 0xEF ∧ b1 = 0xBB ∧ b2 = 0xBF then "utf8".toList
      else if b0 = 0xFE ∧ b1 = 0xFF then "utf16be".toList
      else if b0 = 0xFF ∧ b1 = 0xFE then "utf16le".toList
      else detectTrial dec enc buffer testEncodings
    | _ => detectTrial dec enc buffer testEncodings
  else
    match guess with
    | some r => normalizeLabel r.label
    | none => detectTrial dec enc buffer testEncodings

/-! ### Spec components (spec §4.1–§4.4): Byte Sniffer, Round-Trip
Validator, and the selection chain they compose into. -/

/-- The Byte Sniffer of spec §4.1, as implemented by the BOM conditionals of
src/2xlsx.js lines 18–31: the three signatures are only consulted when the
buffer has at least three bytes. -/
def sniffBOM : Buffer → Option JsStr
  | b0 :: b1 :: b2 :: _ =>
    if b0 = 0xEF ∧ b1 = 0xBB ∧ b2 = 0xBF then some "utf8".toList
    else if b0 = 0xFE ∧ b1 = 0xFF then some "utf16be".toList
    else if b0 = 0xFF ∧ b1 = 0xFE then some "utf16le".toList
    else none
  | _ => none

/-- The Round-Trip Validator of spec §4.3: decode, re-encode, compare
byte-for-byte; codec failures count as not validating. -/
def validateRoundTrip (dec : JsStr → Buffer → Option JsStr)
    (enc : JsStr → JsStr → Option Buffer) (buffer : Buffer) (e : JsStr) :
    Bool :=
  match dec e buffer with
  | some decoded =>
    match enc e decoded with
    | some reEncoded => decide (reEncoded = buffer)
    | none => false
  | none => false

/-- The selection chain as spec §4.4 words it: a confident guess is
normalized and selected; otherwise a sniffed BOM is selected; otherwise the
first round-trip-validating trial encoding, with `utf8` as the final
default. -/
def selectionChain (dec : JsStr → Buffer → Option JsStr)
    (enc : JsStr → JsStr → Option Buffer) (buffer : Buffer)
    (guess : Option GuessResult) : JsStr :=
  match guess with
  | some r =>
    if 85 / 100 ≤ r.confidence then normalizeLabel r.label
    else
      match sniffBOM buffer with
      | some e => e
      | none =>
        match testEncodings.find? (validateRoundTrip dec enc buffer) with
        | some e => e
        | none => "utf8".toList
  | none =>
    match sniffBOM buffer with
    | some e => e
    | none =>
      match testEncodings.find? (validateRoundTrip dec enc buffer) with
      | some e => e
      | none => "utf8".toList

/-! ### src/2xlsx.js, `readAndDecodeCSV` (lines 84–133) -/

/-- The character class of the mojibake scan
`/[�\u0000-\u0008\u000B-\u000C\u000E-\u001F]/g`
(src/2xlsx.js lines 110 and 118). -/
def isBadChar (c : Char) : Bool :=
  decide (c = '�' ∨ c.toNat ≤ 0x08 ∨ c.toNat = 0x0B ∨ c.toNat = 0x0C ∨
    (0x0E ≤ c.toNat ∧ c.toNat ≤ 0x1F))

/-- Number of matches of the mojibake scan: `content.match(...).length`,
with a null match result counting as zero. -/
def countBad (t : JsStr) : Nat := (t.filter isBadChar).length

/-- The `fallbackEncodings` list of src/2xlsx.js line 95. -/
def fallbackEncodings : List JsStr :=
  ["utf8".toList, "gbk".toList, "big5".toList, "shift-jis".toList,
   "cp1252".toList]

/-- The `alternativeEncodings` list of src/2xlsx.js line 114. -/
def alternativeEncodings : List JsStr :=
  ["gbk".toList, "big5".toList, "shift-jis".toList]

/-- The fallback for-loop of src/2xlsx.js lines 96–105: skip the encoding
already tried, return the first decode that does not throw; `none` models
the `throw` of line 106 when the loop exhausts the list. -/
def decodeFallback (dec : JsStr → Buffer → Option JsStr) (buffer : Buffer)
    (encoding : JsStr) : List JsStr → Option JsStr
  | [] => none
  | e :: rest =>
    if e = encoding then decodeFallback dec buffer encoding rest
    else
      match dec e buffer with
      | some content => some content
      | none => decodeFallback dec buffer encoding rest

/-- The alternative-encoding for-loop of src/2xlsx.js lines 115–126: return
the first alternative decode whose bad-character count is strictly below
the initial count (the `!altInvalidChars ||` disjunct is subsumed because
the count is positive whenever the scan triggered); decode throws and
non-improving alternatives continue the loop. -/
def tryAlternatives (dec : JsStr → Buffer → Option JsStr) (buffer : Buffer)
    (bad : Nat) : List JsStr → Option JsStr
  | [] => none
  | e :: rest =>
    match dec e buffer with
    | some alt =>
      if countBad alt < bad then some alt
      else tryAlternatives dec buffer bad rest
    | none => tryAlternatives dec buffer bad rest

/-- Model of `readAndDecodeCSV` (src/2xlsx.js lines 84–133).  The scan
threshold `invalidChars.length > content.length * 0.1` is the exact rational
comparison `10 * countBad > length`; lengths are UTF-16 code-unit counts. -/
def readAndDecodeCSV (dec : JsStr → Buffer → Option JsStr) (buffer : Buffer)
    (encoding : JsStr) : Option JsStr :=
  match dec encoding buffer with
  | none => decodeFallback dec buffer encoding fallbackEncodings
  | some content =>
    if jsUtf16Length content < 10 * countBad content then
      match tryAlternatives dec buffer (countBad content) alternativeEncodings with
      | some alt => some alt
      | none => some content
    else some content

/-! ### src/2xlsx.js, the `mapValues` normalizer (lines 162–187) -/

/-- The character class of the cleaning step `value.replace(/[\x00-\x1F\x7F]/g, '')`
of src/2xlsx.js line 166: all of 0x00–0x1F plus 0x7F. -/
def ctlStripMap (c : Char) : Bool :=
  decide (c.toNat ≤ 0x1F ∨ c.toNat = 0x7F)

/-- The field cleaning of `mapValues`: strip the control class, then trim. -/
def cleanValue (v : JsStr) : JsStr := jsTrim (jsStripAll ctlStripMap v)

/-- Split a string at its first dot: the part before it and, when a dot is
present, the part after it. -/
def splitAtDot : JsStr → JsStr × Option JsStr
  | [] => ([], none)
  | c :: rest =>
    if c = '.' then ([], some rest)
    else
      let p := splitAtDot rest
      (c :: p.1, p.2)

/-- The language of the regular expression `\d*\.?\d+`: either a non-empty
digit string, or digits (possibly none), a dot, and a non-empty digit
string. -/
def numericBody (v : JsStr) : Bool :=
  let p := splitAtDot v
  match p.2 with
  | none => !v.isEmpty && v.all Char.isDigit
  | some b => p.1.all Char.isDigit && !b.isEmpty && b.all Char.isDigit

/-- The numeric test `/^-?\d*\.?\d+$/.test(value)` of src/2xlsx.js
line 169. -/
def numericPattern : JsStr → Bool
  | '-' :: rest => numericBody rest
  | v => numericBody v

/-- Numeric value of a digit string. -/
def natOfDigits (l : JsStr) : Nat :=
  l.foldl (fun a c => 10 * a + (c.toNat - 48)) 0

/-- Value of an unsigned decimal literal with an optional fraction. -/
def parseMagnitude (v : JsStr) : ℚ :=
  let p := splitAtDot v
  match p.2 with
  | none => (natOfDigits v : ℚ)
  | some b => (natOfDigits p.1 : ℚ) + (natOfDigits b : ℚ) / (10 ^ b.length : ℚ)

/-- Model of `Number(value)` on strings matching the numeric pattern, where
it never yields NaN, so the numeric branch of `mapValues` always returns a
number (the value is modelled exactly rather than as a rounded double; no
claim depends on the numeric value itself). -/
def parseNumber : JsStr → ℚ
  | '-' :: rest => -(parseMagnitude rest)
  | v => parseMagnitude v

/-- Split a string at its leading run of digits. -/
def splitDigits : JsStr → JsStr × JsStr
  | [] => ([], [])
  | c :: rest =>
    if c.isDigit then
      let p := splitDigits rest
      (c :: p.1, p.2)
    else ([], c :: rest)

/-- The separator class of the date patterns: a hyphen or a slash. -/
def isDateSep (c : Char) : Bool := decide (c = '-' ∨ c = '/')

/-- The date format of src/2xlsx.js line 176: four digits, a hyphen or
slash separator, one or two digits, a separator, one or two digits. -/
def datePatternA (v : JsStr) : Bool :=
  let p1 := splitDigits v
  match p1.2 with
  | s1 :: r1 =>
    if p1.1.length = 4 ∧ isDateSep s1 then
      let p2 := splitDigits r1
      match p2.2 with
      | s2 :: r2 =>
        if (p2.1.length = 1 ∨ p2.1.length = 2) ∧ isDateSep s2 then
          let p3 := splitDigits r2
          decide ((p3.1.length = 1 ∨ p3.1.length = 2) ∧ p3.2 = [])
        else false
      | [] => false
    else false
  | [] => false

/-- The date format of src/2xlsx.js line 177: one or two digits, a hyphen
or slash separator, one or two digits, a separator, four digits. -/
def datePatternB (v : JsStr) : Bool :=
  let p1 := splitDigits v
  match p1.2 with
  | s1 :: r1 =>
    if (p1.1.length = 1 ∨ p1.1.length = 2) ∧ isDateSep s1 then
      let p2 := splitDigits r1
      match p2.2 with
      | s2 :: r2 =>
        if (p2.1.length = 1 ∨ p2.1.length = 2) ∧ isDateSep s2 then
          let p3 := splitDigits r2
          decide (p3.1.length = 4 ∧ p3.2 = [])
        else false
      | [] => false
    else false
  | [] => false

/-- The localized date format `/^\d{4}年\d{1,2}月\d{1,2}日$/` of
src/2xlsx.js line 178. -/
def datePatternC (v : JsStr) : Bool :=
  let p1 := splitDigits v
  match p1.2 with
  | s1 :: r1 =>
    if p1.1.length = 4 ∧ s1 = '年' then
      let p2 := splitDigits r1
      match p2.2 with
      | s2 :: r2 =>
        if (p2.1.length = 1 ∨ p2.1.length = 2) ∧ s2 = '月' then
          let p3 := splitDigits r2
          decide ((p3.1.length = 1 ∨ p3.1.length = 2) ∧ p3.2 = ['日'])
        else false
      | [] => false
    else false
  | [] => false

/-- Model of the validity check `!isNaN(new Date(value))` performed by the
external JavaScript `Date` builtin (a platform primitive, not repository
code): a value whose month component lies in 1..12 and day component in
1..31 is considered parsable.  The theorems below also take this check as
an arbitrary parameter `dv` wherever possible, because no claim depends on
its exact extension. -/
def jsDateValidModel (v : JsStr) : Bool :=
  let p1 := splitDigits v
  match p1.2 with
  | s1 :: r1 =>
    let p2 := splitDigits r1
    match p2.2 with
    | _ :: r2 =>
      let p3 := splitDigits r2
      let n1 := natOfDigits p1.1
      let n2 := natOfDigits p2.1
      let n3 := natOfDigits p3.1
      if s1 = '年' ∨ p1.1.length = 4 then
        decide (1 ≤ n2 ∧ n2 ≤ 12 ∧ 1 ≤ n3 ∧ n3 ≤ 31)
      else decide (1 ≤ n1 ∧ n1 ≤ 12 ∧ 1 ≤ n2 ∧ n2 ≤ 31)
    | [] => false
  | [] => false

/-- The closed field-value variant produced by the `mapValues` normalizer:
null, number, date (carrying the string it was parsed from, which
determines the `Date` object) or string. -/
inductive JsValue where
  | null : JsValue
  | num : ℚ → JsValue
  | date : JsStr → JsValue
  | str : JsStr → JsValue
deriving DecidableEq

/-- Model of the `mapValues` callback of src/2xlsx.js lines 162–187: the
empty string maps to null before any cleaning; otherwise the value is
cleaned, then coerced to a number when it matches the numeric pattern
(`Number` is never NaN there), then to a date when it matches a date
pattern and the external check `dv` accepts it; otherwise the cleaned
string is returned. -/
def mapValue (dv : JsStr → Bool) (value : JsStr) : JsValue :=
  if value = [] then .null
  else
    let v := cleanValue value
    if numericPattern v then .num (parseNumber v)
    else if datePatternA v || datePatternB v || datePatternC v then
      if dv v then .date v else .str v
    else .str v

/-! ### src/2xlsx2.js, `parseCSVContent` record cleaning and filtering
(lines 75–105) -/

/-- The character class of the record cleaning
`/[\x00-\x09\x0B-\x1F\x7F]/g` of src/2xlsx2.js line 84: 0x00–0x09 and
0x0B–0x1F plus 0x7F (line feed 0x0A is not stripped). -/
def ctlStripRecord (c : Char) : Bool :=
  decide (c.toNat ≤ 0x09 ∨ (0x0B ≤ c.toNat ∧ c.toNat ≤ 0x1F) ∨
    c.toNat = 0x7F)

/-- Field cleaning of the `on_record` callback (src/2xlsx2.js lines
81–87): strip the record control class and trim. -/
def cleanRecordValue (v : JsStr) : JsStr := jsTrim (jsStripAll ctlStripRecord v)

/-- A parsed record: field names mapped to raw string values, as produced
by csv-parse with `columns: true`. -/
abbrev Record := List (JsStr × JsStr)

/-- The `allowedPatientIds` allow-list of src/2xlsx2.js lines 25–27. -/
def allowedPatientIds : List JsStr := ["PA100".toList]

/-- The `on_record` callback of `parseCSVContent` (src/2xlsx2.js lines
79–95): clean every field, then keep the record only when its PATIENT_ID
field is truthy and in the allow-list; otherwise the record is dropped
(`null`).  A missing field (undefined) and an empty string are both falsy,
so both are modelled by the empty-string default. -/
def onRecord (allow : List JsStr) (record : Record) : Option Record :=
  let cleaned := record.map (fun kv => (kv.1, cleanRecordValue kv.2))
  let pid := (assoc "PATIENT_ID".toList cleaned).getD []
  if pid ≠ [] ∧ pid ∈ allow then some cleaned else none

/-- Character class named by claim C6 (the ranges 00–08, 0B–0C, 0E–1F and
7F, leaving tab, line feed and carriage return intact), for comparison
with the classes the source actually strips. -/
def claimedCtl (c : Char) : Bool :=
  decide (c.toNat ≤ 0x08 ∨ c.toNat = 0x0B ∨ c.toNat = 0x0C ∨
    (0x0E ≤ c.toNat ∧ c.toNat ≤ 0x1F) ∨ c.toNat = 0x7F)

/-- Cleaner following claim C6's words: strip only `claimedCtl` and trim
surrounding whitespace. -/
def claimedClean (v : JsStr) : JsStr := jsTrim (jsStripAll claimedCtl v)

/-- Concrete instance of the external character-set codec collaborator of
spec §6 (iconv-lite is a third-party library, not repository code), fixing
decode results for the specific buffers on which the concrete theorems
below evaluate the decode pipeline. -/
def demoDec : JsStr → Buffer → Option JsStr := fun e buf =>
  if buf = [1] then
    if e = "utf8".toList then
      some (List.replicate 5 '�' ++ List.replicate 5 'a')
    else if e = "gbk".toList then
      some (List.replicate 4 '�' ++ List.replicate 6 'a')
    else if e = "big5".toList then some (List.replicate 10 'a')
    else none
  else if buf = [2] then
    if e = "utf8".toList then some ('�' :: List.replicate 9 'a')
    else if e = "gbk".toList then some (List.replicate 10 'b')
    else none
  else if buf = [3] then
    if e = "big5".toList then some "ok".toList
    else if e = "shift-jis".toList then some "no".toList
    else none
  else if buf = [4] then
    if e = "utf8".toList then some (List.replicate 4 '�')
    else none
  else none

theorem detectTrial_eq_find (dec : JsStr → Buffer → Option JsStr)
    (enc : JsStr → JsStr → Option Buffer) (buffer : Buffer) (L : List JsStr) :
    detectTrial dec enc buffer L =
      (L.find? (validateRoundTrip dec enc buffer)).getD "utf8".toList := by
  induction L with
  | nil => rfl
  | cons e rest ih =>
    simp only [detectTrial, List.find?, validateRoundTrip]
    rcases h1 : dec e buffer with _ | decoded
    · simpa [h1] using ih
    · rcases h2 : enc e decoded with _ | reEncoded
      · simpa [h1, h2] using ih
      · by_cases h : reEncoded = buffer
        · simp [h1, h2, h]
        · simp [h1, h2, h, ih]

theorem sniff_or_trial_eq (dec : JsStr → Buffer → Option JsStr)
    (enc : JsStr → JsStr → Option Buffer) (buffer : Buffer) :
    (match buffer with
      | b0 :: b1 :: b2 :: _ =>
        if b0 = 0xEF ∧ b1 = 0xBB ∧ b2 = 0xBF then "utf8".toList
        else if b0 = 0xFE ∧ b1 = 0xFF then "utf16be".toList
        else if b0 = 0xFF ∧ b1 = 0xFE then "utf16le".toList
        else detectTrial dec enc buffer testEncodings
      | _ => detectTrial dec enc buffer testEncodings) =
      (match sniffBOM buffer with
        | some e => e
        | none =>
          match testEncodings.find? (validateRoundTrip dec enc buffer) with
          | some e => e
          | none => "utf8".toList) := by
  have htrial : detectTrial dec enc buffer testEncodings =
      (match testEncodings.find? (validateRoundTrip dec enc buffer) with
        | some e => e
        | none => "utf8".toList) := by
    rw [detectTrial_eq_find]
    cases testEncodings.find? (validateRoundTrip dec enc buffer) <;> rfl
  rcases buffer with _ | ⟨b0, _ | ⟨b1, _ | ⟨b2, rest⟩⟩⟩
  · simpa [sniffBOM] using htrial
  · simpa [sniffBOM] using htrial
  · simpa [sniffBOM] using htrial
  · simp only [sniffBOM]
    split_ifs <;> simp_all

/-- C2: the encoding selected by `detectFileEncoding` follows the priority
chain of the spec: a statistical guess with confidence at least 0.85 wins
and is normalized; otherwise a recognized BOM wins; otherwise the first
trial encoding in `[utf8, gbk, big5, shift-jis]` that round-trips the
buffer byte-for-byte; otherwise `utf8`. -/
theorem detect_matches_selection_chain (dec : JsStr → Buffer → Option JsStr)
    (enc : JsStr → JsStr → Option Buffer) (buffer : Buffer)
    (guess : Option GuessResult) :
    detectFileEncoding dec enc buffer guess = selectionChain dec enc buffer guess := by
  cases guess with
  | none =>
    simpa only [detectFileEncoding, lowConfidence, if_true, selectionChain]
      using sniff_or_trial_eq dec enc buffer
  | some r =>
    by_cases h : r.confidence < 85 / 100
    · have hd : lowConfidence (some r) = true := by simp [lowConfidence, h]
      have hle : ¬ (85 / 100 ≤ r.confidence) := not_le.mpr h
      simpa only [detectFileEncoding, hd, if_true, selectionChain, hle, if_false]
        using sniff_or_trial_eq dec enc buffer
    · have hd : lowConfidence (some r) = false := by simp [lowConfidence, h]
      have hle : 85 / 100 ≤ r.confidence := not_lt.mp h
      simp [detectFileEncoding, hd, selectionChain, hle]

/-- C3 counterexample: a buffer of exactly two bytes beginning FE FF (or
FF FE) does not yield a UTF-16 candidate; the sniffer's signature checks
are all guarded by a three-byte minimum, so it yields no match. -/
theorem sniff_two_byte_counterexample :
    sniffBOM [0xFE, 0xFF] = none ∧
    sniffBOM [0xFE, 0xFF] ≠ some "utf16be".toList ∧
    sniffBOM [0xFF, 0xFE] = none ∧
    sniffBOM [0xFF, 0xFE] ≠ some "utf16le".toList := by
  refine ⟨rfl, ?_, rfl, ?_⟩ <;> decide

/-- C3 amended: the sniffer checks the three fixed signatures in order
EF BB BF → utf8, FE FF → utf16be, FF FE → utf16le with first match winning,
but every buffer with fewer than 3 bytes yields no match; only buffers of
at least 3 bytes can match, including the two 2-byte UTF-16 signatures. -/
theorem sniff_spec :
    (∀ buffer : Buffer, buffer.length < 3 → sniffBOM buffer = none) ∧
    (∀ rest : Buffer, sniffBOM (0xEF :: 0xBB :: 0xBF :: rest) = some "utf8".toList) ∧
    (∀ (b2 : Nat) (rest : Buffer),
      sniffBOM (0xFE :: 0xFF :: b2 :: rest) = some "utf16be".toList) ∧
    (∀ (b2 : Nat) (rest : Buffer),
      sniffBOM (0xFF :: 0xFE :: b2 :: rest) = some "utf16le".toList) ∧
    (∀ (b0 b1 b2 : Nat) (rest : Buffer),
      ¬(b0 = 0xEF ∧ b1 = 0xBB ∧ b2 = 0xBF) → ¬(b0 = 0xFE ∧ b1 = 0xFF) →
      ¬(b0 = 0xFF ∧ b1 = 0xFE) → sniffBOM (b0 :: b1 :: b2 :: rest) = none) := by
  refine ⟨?_, ?_, ?_, ?_, ?_⟩
  · intro buffer h
    rcases buffer with _ | ⟨b0, _ | ⟨b1, _ | ⟨b2, rest⟩⟩⟩
    · rfl
    · rfl
    · rfl
    · exfalso; simp only [List.length_cons] at h; omega
  · intro rest; simp [sniffBOM]
  · intro b2 rest; simp [sniffBOM]
  · intro b2 rest; simp [sniffBOM]
  · intro b0 b1 b2 rest h1 h2 h3; simp [sniffBOM, h1, h2, h3]

theorem decodeFallback_eq_none_iff (dec : JsStr → Buffer → Option JsStr)
    (buffer : Buffer) (encoding : JsStr) (L : List JsStr) :
    decodeFallback dec buffer encoding L = none ↔
      ∀ e ∈ L, e ≠ encoding → dec e buffer = none := by
  induction L with
  | nil => simp [decodeFallback]
  | cons e rest ih =>
    simp only [decodeFallback, List.forall_mem_cons]
    by_cases he : e = encoding
    · simp [he, ih]
    · rcases hd : dec e buffer with _ | t
      · simp [he, hd, ih]
      · simp [he, hd]

theorem decodeFallback_append_first (dec : JsStr → Buffer → Option JsStr)
    (buffer : Buffer) (encoding e t : JsStr) (L2 : List JsStr)
    (he : e ≠ encoding) (ht : dec e buffer = some t) :
    ∀ L1 : List JsStr, (∀ x ∈ L1, x ≠ encoding → dec x buffer = none) →
      decodeFallback dec buffer encoding (L1 ++ e :: L2) = some t := by
  intro L1
  induction L1 with
  | nil => intro _; simp [decodeFallback, he, ht]
  | cons a L1 ih =>
    intro hskip
    have hrest : ∀ x ∈ L1, x ≠ encoding → dec x buffer = none :=
      fun x hx => hskip x (List.mem_cons_of_mem a hx)
    by_cases hae : a = encoding
    · simpa only [List.cons_append, decodeFallback, if_pos hae] using ih hrest
    · have ha : dec a buffer = none := hskip a (List.mem_cons_self a L1) hae
      simp only [List.cons_append, decodeFallback, if_neg hae, ha]
      exact ih hrest

theorem tryAlternatives_eq_none (dec : JsStr → Buffer → Option JsStr)
    (buffer : Buffer) (bad : Nat) :
    ∀ L : List JsStr, (∀ e ∈ L, ∀ t, dec e buffer = some t → bad ≤ countBad t) →
      tryAlternatives dec buffer bad L = none := by
  intro L
  induction L with
  | nil => intro _; rfl
  | cons e rest ih =>
    intro h
    have hrest : ∀ x ∈ rest, ∀ t, dec x buffer = some t → bad ≤ countBad t :=
      fun x hx => h x (List.mem_cons_of_mem e hx)
    rcases hd : dec e buffer with _ | t
    · simp only [tryAlternatives, hd]
      exact ih hrest
    · have hge : bad ≤ countBad t := h e (List.mem_cons_self e rest) t hd
      simp only [tryAlternatives, hd, if_neg (not_lt.mpr hge)]
      exact ih hrest

theorem tryAlternatives_append_first (dec : JsStr → Buffer → Option JsStr)
    (buffer : Buffer) (bad : Nat) (e t : JsStr) (L2 : List JsStr)
    (ht : dec e buffer = some t) (hlt : countBad t < bad) :
    ∀ L1 : List JsStr,
      (∀ x ∈ L1, ∀ u, dec x buffer = some u → bad ≤ countBad u) →
      tryAlternatives dec buffer bad (L1 ++ e :: L2) = some t := by
  intro L1
  induction L1 with
  | nil => intro _; simp [tryAlternatives, ht, hlt]
  | cons a L1 ih =>
    intro hskip
    have hrest : ∀ x ∈ L1, ∀ u, dec x buffer = some u → bad ≤ countBad u :=
      fun x hx => hskip x (List.mem_cons_of_mem a hx)
    rcases hd : dec a buffer with _ | u
    · simp only [List.cons_append, tryAlternatives, hd]
      exact ih hrest
    · have hge : bad ≤ countBad u := hskip a (List.mem_cons_self a L1) u hd
      simp only [List.cons_append, tryAlternatives, hd, if_neg (not_lt.mpr hge)]
      exact ih hrest

/-- C7: when the initial decode throws, the pipeline walks the fixed list
utf8, gbk, big5, shift-jis, cp1252 in order, skipping the encoding already
tried, and returns the first decode that succeeds; it fails (the
DecodeError throw) exactly when every fallback encoding other than the one
already tried also fails. -/
theorem decode_fallback_spec (dec : JsStr → Buffer → Option JsStr)
    (buffer : Buffer) (encoding : JsStr)
    (hfail : dec encoding buffer = none) :
    (readAndDecodeCSV dec buffer encoding = none ↔
      ∀ e ∈ fallbackEncodings, e ≠ encoding → dec e buffer = none) ∧
    (∀ (L1 : List JsStr) (e : JsStr) (L2 : List JsStr) (t : JsStr),
      fallbackEncodings = L1 ++ e :: L2 → e ≠ encoding →
      (∀ x ∈ L1, x ≠ encoding → dec x buffer = none) →
      dec e buffer = some t →
      readAndDecodeCSV dec buffer encoding = some t) := by
  constructor
  · simpa only [readAndDecodeCSV, hfail]
      using decodeFallback_eq_none_iff dec buffer encoding fallbackEncodings
  · intro L1 e L2 t hsplit he hskip ht
    simp only [readAndDecodeCSV, hfail]
    rw [hsplit]
    exact decodeFallback_append_first dec buffer encoding e t L2 he ht L1 hskip

/-- C9: when the initial decode throws and a fallback encoding decodes
without error, the fallback text is returned as-is, bypassing the
bad-character-density scan: the conclusion holds even under the explicit
hypothesis that the text's bad-character count exceeds one tenth of its
length. -/
theorem fallback_skips_badchar_scan (dec : JsStr → Buffer → Option JsStr)
    (buffer : Buffer) (encoding : JsStr)
    (hfail : dec encoding buffer = none)
    (L1 : List JsStr) (e : JsStr) (L2 : List JsStr) (t : JsStr)
    (hsplit : fallbackEncodings = L1 ++ e :: L2) (he : e ≠ encoding)
    (hskip : ∀ x ∈ L1, x ≠ encoding → dec x buffer = none)
    (ht : dec e buffer = some t)
    (_hdense : jsUtf16Length t < 10 * countBad t) :
    readAndDecodeCSV dec buffer encoding = some t := by
  simp only [readAndDecodeCSV, hfail]
  rw [hsplit]
  exact decodeFallback_append_first dec buffer encoding e t L2 he ht L1 hskip

/-- C1 amended: for a buffer whose initial decode succeeds, the mojibake
re-decode pass runs only when the bad-character count strictly exceeds one
tenth of the text's length (a ratio of exactly 0.10 does not trigger it,
and the initial text is then returned even if an alternative would score
strictly lower); when it runs, it returns the first alternative in the
fixed order gbk, big5, shift-jis whose bad-character count is strictly
below the initial count — not the lowest-scoring one — and returns the
initial text when no alternative improves on it. -/
theorem repair_spec (dec : JsStr → Buffer → Option JsStr) (buffer : Buffer)
    (encoding content : JsStr)
    (hdec : dec encoding buffer = some content) :
    (10 * countBad content ≤ jsUtf16Length content →
      readAndDecodeCSV dec buffer encoding = some content) ∧
    ((∀ e ∈ alternativeEncodings, ∀ t, dec e buffer = some t →
        countBad content ≤ countBad t) →
      readAndDecodeCSV dec buffer encoding = some content) ∧
    (∀ (L1 : List JsStr) (e : JsStr) (L2 : List JsStr) (t : JsStr),
      alternativeEncodings = L1 ++ e :: L2 →
      (∀ x ∈ L1, ∀ u, dec x buffer = some u → countBad content ≤ countBad u) →
      dec e buffer = some t → countBad t < countBad content →
      jsUtf16Length content < 10 * countBad content →
      readAndDecodeCSV dec buffer encoding = some t) := by
  refine ⟨?_, ?_, ?_⟩
  · intro hle
    simp only [readAndDecodeCSV, hdec, if_neg (not_lt.mpr hle)]
  · intro hnone
    simp only [readAndDecodeCSV, hdec]
    by_cases hb : jsUtf16Length content < 10 * countBad content
    · rw [if_pos hb,
        tryAlternatives_eq_none dec buffer (countBad content)
          alternativeEncodings hnone]
    · rw [if_neg hb]
  · intro L1 e L2 t hsplit hskip ht hlt hb
    simp only [readAndDecodeCSV, hdec, if_pos hb]
    rw [hsplit,
      tryAlternatives_append_first dec buffer (countBad content) e t L2 ht hlt
        L1 hskip]

/-- C3 amended, witness: concrete instances of the sniffer specification,
including the 2-byte FE FF buffer that yields no match. -/
theorem sniff_spec_witness :
    sniffBOM [0xFE, 0xFF] = none ∧
    sniffBOM [0xFE, 0xFF, 0x00] = some "utf16be".toList ∧
    sniffBOM [0x41, 0x42, 0x43] = none :=
  ⟨sniff_spec.1 [0xFE, 0xFF] (by decide),
   sniff_spec.2.2.1 0x00 [],
   sniff_spec.2.2.2.2 0x41 0x42 0x43 [] (by decide) (by decide) (by decide)⟩

theorem jsStripAll_eq_filter (p : Char → Bool) (v : JsStr) :
    jsStripAll p v = v.filter (fun c => !p c) := by
  induction v with
  | nil => rfl
  | cons c rest ih =>
    by_cases h : p c <;> simp [jsStripAll, List.filter_cons, h, ih]

theorem mem_of_mem_dropWhile (p : Char → Bool) (c : Char) :
    ∀ l : JsStr, c ∈ l.dropWhile p → c ∈ l := by
  intro l
  induction l with
  | nil => simp
  | cons a rest ih =>
    by_cases h : p a
    · intro hm
      rw [List.dropWhile_cons, if_pos h] at hm
      exact List.mem_cons_of_mem a (ih hm)
    · intro hm
      rwa [List.dropWhile_cons, if_neg h] at hm

theorem mem_of_mem_jsTrim (c : Char) (l : JsStr) (h : c ∈ jsTrim l) :
    c ∈ l := by
  unfold jsTrim at h
  rw [List.mem_reverse] at h
  have h2 := mem_of_mem_dropWhile isJsWs c _ h
  rw [List.mem_reverse] at h2
  exact mem_of_mem_dropWhile isJsWs c _ h2

theorem dropWhile_head_not (p : Char → Bool) :
    ∀ l : JsStr, ∀ a ∈ (l.dropWhile p).head?, p a = false := by
  intro l
  induction l with
  | nil => simp
  | cons c rest ih =>
    by_cases h : p c
    · simpa [List.dropWhile_cons, h] using ih
    · intro a ha
      rw [List.dropWhile_cons, if_neg h] at ha
      have hca : c = a := by simpa using ha
      rw [← hca]
      simpa using h

theorem dropWhile_of_head_not (p : Char → Bool) (l : JsStr)
    (h : ∀ a ∈ l.head?, p a = false) : l.dropWhile p = l := by
  cases l with
  | nil => rfl
  | cons c rest =>
    have hc : p c = false := h c (by simp)
    rw [List.dropWhile_cons, if_neg (by simp [hc])]

theorem dropWhile_idem (p : Char → Bool) (l : JsStr) :
    (l.dropWhile p).dropWhile p = l.dropWhile p :=
  dropWhile_of_head_not p _ (dropWhile_head_not p l)

theorem dropWhile_suffix_exists (p : Char → Bool) :
    ∀ l : JsStr, ∃ s, s ++ l.dropWhile p = l := by
  intro l
  induction l with
  | nil => exact ⟨[], rfl⟩
  | cons c rest ih =>
    by_cases h : p c
    · obtain ⟨s, hs⟩ := ih
      exact ⟨c :: s, by rw [List.dropWhile_cons, if_pos h, List.cons_append, hs]⟩
    · exact ⟨[], by rw [List.dropWhile_cons, if_neg h]; rfl⟩

theorem jsTrim_head_not (l : JsStr) :
    ∀ a ∈ (jsTrim l).head?, isJsWs a = false := by
  intro a ha
  obtain ⟨s, hs⟩ := dropWhile_suffix_exists isJsWs (l.dropWhile isJsWs).reverse
  have hm : jsTrim l ++ s.reverse = l.dropWhile isJsWs := by
    have h2 := congrArg List.reverse hs
    simpa [jsTrim, List.reverse_append] using h2
  cases hj : jsTrim l with
  | nil => rw [hj] at ha; cases ha
  | cons b rest =>
    have hab : b = a := by rw [hj] at ha; simpa using ha
    have hmh : (l.dropWhile isJsWs).head? = some b := by
      rw [← hm, hj]; rfl
    rw [← hab]
    exact dropWhile_head_not isJsWs l b hmh

theorem jsTrim_idem (l : JsStr) : jsTrim (jsTrim l) = jsTrim l := by
  have h1 : (jsTrim l).dropWhile isJsWs = jsTrim l :=
    dropWhile_of_head_not _ _ (jsTrim_head_not l)
  have h2 : (jsTrim l).reverse = (l.dropWhile isJsWs).reverse.dropWhile isJsWs := by
    simp [jsTrim]
  show (((jsTrim l).dropWhile isJsWs).reverse.dropWhile isJsWs).reverse = jsTrim l
  rw [h1, h2, dropWhile_idem]
  simp [jsTrim]

theorem jsTrim_eq_nil_of_all (l : JsStr) (h : ∀ a ∈ l, isJsWs a = true) :
    jsTrim l = [] := by
  have h1 : l.dropWhile isJsWs = [] := by
    induction l with
    | nil => rfl
    | cons c rest ih =>
      rw [List.dropWhile_cons, if_pos (h c (List.mem_cons_self c rest))]
      exact ih fun a ha => h a (List.mem_cons_of_mem c ha)
  simp [jsTrim, h1]

theorem cleanValue_idem (v : JsStr) : cleanValue (cleanValue v) = cleanValue v := by
  unfold cleanValue
  have hall : ∀ c ∈ jsTrim (jsStripAll ctlStripMap v), (!ctlStripMap c) = true := by
    intro c hc
    have hmem := mem_of_mem_jsTrim c _ hc
    rw [jsStripAll_eq_filter] at hmem
    exact (List.mem_filter.mp hmem).2
  have hstrip : jsStripAll ctlStripMap (jsTrim (jsStripAll ctlStripMap v)) =
      jsTrim (jsStripAll ctlStripMap v) := by
    rw [jsStripAll_eq_filter]
    exact List.filter_eq_self.mpr hall
  rw [hstrip, jsTrim_idem]

theorem assoc_map_value (f : JsStr → JsStr) (k : JsStr) :
    ∀ l : List (JsStr × JsStr),
      assoc k (l.map (fun kv => (kv.1, f kv.2))) = (assoc k l).map f := by
  intro l
  induction l with
  | nil => rfl
  | cons kv rest ih =>
    obtain ⟨k1, v1⟩ := kv
    by_cases h : k1 = k
    · simp [assoc, h]
    · simp [assoc, h, ih]

/-- C5: an empty-string input field normalizes to null — and in particular
not to the empty string — for every model of the external date parser. -/
theorem empty_string_normalizes_to_null (dv : JsStr → Bool) :
    mapValue dv [] = JsValue.null ∧ mapValue dv [] ≠ JsValue.str [] := by
  constructor
  · rfl
  · simp [mapValue]

/-- C10: a non-empty field value consisting entirely of stripped control
characters and/or whitespace normalizes to the empty string, not to null,
because the empty-string test precedes cleaning. -/
theorem all_control_ws_normalizes_to_empty (dv : JsStr → Bool) (v : JsStr)
    (hne : v ≠ [])
    (hall : ∀ c ∈ v, ctlStripMap c = true ∨ isJsWs c = true) :
    mapValue dv v = JsValue.str [] ∧ mapValue dv v ≠ JsValue.null := by
  have hclean : cleanValue v = [] := by
    unfold cleanValue
    apply jsTrim_eq_nil_of_all
    intro c hc
    rw [jsStripAll_eq_filter] at hc
    obtain ⟨hcv, hcp⟩ := List.mem_filter.mp hc
    rcases hall c hcv with h | h
    · simp [h] at hcp
    · exact h
  have h1 : mapValue dv v = JsValue.str [] := by
    simp only [mapValue, if_neg hne, hclean]
    rfl
  exact ⟨h1, by rw [h1]; simp⟩

/-- C10 witness: a space followed by a 0x01 control character normalizes to
the empty string. -/
theorem all_control_ws_witness :
    mapValue jsDateValidModel [' ', '\x01'] = JsValue.str [] :=
  (all_control_ws_normalizes_to_empty jsDateValidModel [' ', '\x01']
    (by decide) (by decide)).1

/-- C4 counterexample: the per-field normalizer is not a fixed point on its
own outputs: a single-space field normalizes to the empty string, and
applying the normalizer to that output yields null, not the output
itself. -/
theorem normalize_not_idempotent_counterexample :
    mapValue jsDateValidModel [' '] = JsValue.str [] ∧
    mapValue jsDateValidModel [] = JsValue.null ∧
    JsValue.null ≠ JsValue.str [] := by
  refine ⟨by decide, rfl, by simp⟩

/-- C4 amended: the per-field normalizer is a fixed point on its non-empty
string outputs (cleaning is idempotent and the branch tests are
deterministic); its empty-string outputs re-normalize to null instead, and
its null, numeric and date outputs are not strings, so the fixed-point
property cannot apply to them. -/
theorem normalize_fixed_point_on_nonempty_strings (dv : JsStr → Bool)
    (value s : JsStr) (hout : mapValue dv value = JsValue.str s)
    (hne : s ≠ []) : mapValue dv s = JsValue.str s := by
  simp only [mapValue] at hout
  by_cases h0 : value = []
  · rw [if_pos h0] at hout; cases hout
  · rw [if_neg h0] at hout
    by_cases hnum : numericPattern (cleanValue value) = true
    · rw [if_pos hnum] at hout; cases hout
    · rw [if_neg hnum] at hout
      by_cases hdate : (datePatternA (cleanValue value) ||
          datePatternB (cleanValue value) || datePatternC (cleanValue value)) = true
      · rw [if_pos hdate] at hout
        by_cases hdv : dv (cleanValue value) = true
        · rw [if_pos hdv] at hout; cases hout
        · rw [if_neg hdv] at hout
          have hs : cleanValue value = s := by injection hout
          subst hs
          simp only [mapValue, if_neg hne, cleanValue_idem]
          rw [if_neg hnum, if_pos hdate, if_neg hdv]
      · rw [if_neg hdate] at hout
        have hs : cleanValue value = s := by injection hout
        subst hs
        simp only [mapValue, if_neg hne, cleanValue_idem]
        rw [if_neg hnum, if_neg hdate]

/-- C4 amended, witness: a plain non-empty cleaned string output is left
unchanged by a second normalization. -/
theorem normalize_fixed_point_witness :
    mapValue jsDateValidModel "abc".toList = JsValue.str "abc".toList :=
  normalize_fixed_point_on_nonempty_strings jsDateValidModel "abc".toList
    "abc".toList (by decide) (by decide)

/-- C6 counterexample: the cleaners do not leave common whitespace intact:
both strip the tab of `a<tab>b`, and the 2xlsx.js cleaner also strips the
line feed of `a<lf>b`, whereas the cleaner described by the claim leaves
`a<tab>b` unchanged. -/
theorem control_strip_counterexample :
    cleanValue ['a', '\t', 'b'] = ['a', 'b'] ∧
    cleanRecordValue ['a', '\t', 'b'] = ['a', 'b'] ∧
    claimedClean ['a', '\t', 'b'] = ['a', '\t', 'b'] ∧
    (['a', 'b'] : JsStr) ≠ ['a', '\t', 'b'] ∧
    cleanValue ['a', '\n', 'b'] = ['a', 'b'] ∧
    cleanRecordValue ['a', '\n', 'b'] = ['a', '\n', 'b'] := by
  decide

/-- C6 amended: the 2xlsx.js normalizer strips exactly the range 0x00–0x1F
together with 0x7F (so tab, line feed and carriage return are stripped, not
left intact) and then trims; the 2xlsx2.js record cleaner strips exactly
0x00–0x09, 0x0B–0x1F and 0x7F (stripping tab and carriage return, keeping
line feed) and then trims. -/
theorem control_strip_spec :
    (∀ v : JsStr, cleanValue v = jsTrim (v.filter (fun c => !ctlStripMap c))) ∧
    (∀ v : JsStr,
      cleanRecordValue v = jsTrim (v.filter (fun c => !ctlStripRecord c))) ∧
    (∀ c : Char, ctlStripMap c = true ↔ (c.toNat ≤ 0x1F ∨ c.toNat = 0x7F)) ∧
    (∀ c : Char, ctlStripRecord c = true ↔
      (c.toNat ≤ 0x09 ∨ (0x0B ≤ c.toNat ∧ c.toNat ≤ 0x1F) ∨ c.toNat = 0x7F)) ∧
    ctlStripMap '\t' = true ∧ ctlStripMap '\n' = true ∧
    ctlStripMap '\r' = true ∧ ctlStripRecord '\t' = true ∧
    ctlStripRecord '\n' = false ∧ ctlStripRecord '\r' = true := by
  refine ⟨?_, ?_, ?_, ?_, by decide, by decide, by decide, by decide,
    by decide, by decide⟩
  · intro v; unfold cleanValue; rw [jsStripAll_eq_filter]
  · intro v; unfold cleanRecordValue; rw [jsStripAll_eq_filter]
  · intro c; simp [ctlStripMap]
  · intro c; simp [ctlStripRecord]

/-- C8: with the PA100 allow-list, every record whose PATIENT_ID field is
PA999 is dropped and every record whose PATIENT_ID field is PA100 is
retained, each field value of the retained record being exactly the
control-stripped and trimmed original. -/
theorem patient_filter_spec (record : Record) :
    (assoc "PATIENT_ID".toList record = some "PA999".toList →
      onRecord allowedPatientIds record = none) ∧
    (assoc "PATIENT_ID".toList record = some "PA100".toList →
      onRecord allowedPatientIds record =
        some (record.map (fun kv => (kv.1, cleanRecordValue kv.2)))) := by
  constructor
  · intro h
    have hc : cleanRecordValue "PA999".toList = "PA999".toList := by decide
    simp only [onRecord]
    rw [assoc_map_value, h, Option.map_some', hc, Option.getD_some,
      if_neg (by decide)]
  · intro h
    have hc : cleanRecordValue "PA100".toList = "PA100".toList := by decide
    simp only [onRecord]
    rw [assoc_map_value, h, Option.map_some', hc, Option.getD_some,
      if_pos (by decide)]

/-- C8 witness: a concrete PA999 record is dropped and a concrete PA100
record is retained with its other field cleaned and trimmed. -/
theorem patient_filter_witness :
    onRecord allowedPatientIds
      [("PATIENT_ID".toList, "PA999".toList), ("NAME".toList, " Li ".toList)] =
      none ∧
    onRecord allowedPatientIds
      [("PATIENT_ID".toList, "PA100".toList), ("NAME".toList, " Li ".toList)] =
      some [("PATIENT_ID".toList, "PA100".toList),
        ("NAME".toList, "Li".toList)] := by
  constructor
  · exact (patient_filter_spec _).1 (by decide)
  · have h := (patient_filter_spec
      [("PATIENT_ID".toList, "PA100".toList),
        ("NAME".toList, " Li ".toList)]).2 (by decide)
    rw [h]; decide

/-- C1 counterexample: at buffer [1] the initial utf8 decode has bad ratio
0.5 and the pipeline returns the first improving alternative (gbk, 4 bad
characters), not the lowest-scoring one (big5, 0 bad characters); at
buffer [2] the initial decode has bad ratio exactly 0.10 and the pipeline
returns it unchanged although the gbk alternative scores strictly lower. -/
theorem repair_counterexample :
    readAndDecodeCSV demoDec [1] "utf8".toList =
      some (List.replicate 4 '�' ++ List.replicate 6 'a') ∧
    demoDec "big5".toList [1] = some (List.replicate 10 'a') ∧
    countBad (List.replicate 10 'a') <
      countBad (List.replicate 4 '�' ++ List.replicate 6 'a') ∧
    List.replicate 4 '�' ++ List.replicate 6 'a' ≠ List.replicate 10 'a' ∧
    readAndDecodeCSV demoDec [2] "utf8".toList =
      some ('�' :: List.replicate 9 'a') ∧
    10 * countBad ('�' :: List.replicate 9 'a') =
      jsUtf16Length ('�' :: List.replicate 9 'a') ∧
    demoDec "gbk".toList [2] = some (List.replicate 10 'b') ∧
    countBad (List.replicate 10 'b') <
      countBad ('�' :: List.replicate 9 'a') := by
  decide

/-- C1 amended, witness: at buffer [1] the initial utf8 decode has 5 bad
characters out of 10, the scan triggers, and the first improving
alternative (gbk, 4 bad characters) is returned. -/
theorem repair_spec_witness :
    readAndDecodeCSV demoDec [1] "utf8".toList =
      some (List.replicate 4 '�' ++ List.replicate 6 'a') := by
  have h := (repair_spec demoDec [1] "utf8".toList
      (List.replicate 5 '�' ++ List.replicate 5 'a') (by decide)).2.2
      [] "gbk".toList ["big5".toList, "shift-jis".toList]
      (List.replicate 4 '�' ++ List.replicate 6 'a')
      (by decide) (fun x hx => absurd hx (List.not_mem_nil x)) (by decide)
      (by decide) (by decide)
  exact h

/-- C7 witness: at buffer [3] with initial encoding gbk failing, utf8 also
fails, gbk is skipped, and big5 is the first fallback that decodes. -/
theorem decode_fallback_witness :
    readAndDecodeCSV demoDec [3] "gbk".toList = some "ok".toList := by
  have h := (decode_fallback_spec demoDec [3] "gbk".toList (by decide)).2
      ["utf8".toList, "gbk".toList] "big5".toList
      ["shift-jis".toList, "cp1252".toList] "ok".toList
      (by decide) (by decide) (by decide) (by decide)
  exact h

/-- C9 witness: at buffer [4] the initial gbk decode throws and the utf8
fallback decodes to a text made entirely of replacement characters, which
is returned as-is despite its maximal bad-character density. -/
theorem fallback_skips_scan_witness :
    readAndDecodeCSV demoDec [4] "gbk".toList =
      some (List.replicate 4 '�') := by
  have h := fallback_skips_badchar_scan demoDec [4] "gbk".toList (by decide)
      [] "utf8".toList
      ["gbk".toList, "big5".toList, "shift-jis".toList, "cp1252".toList]
      (List.replicate 4 '�') (by decide) (by decide)
      (fun x hx => absurd hx (List.not_mem_nil x)) (by decide) (by decide)
  exact h

end Csv2Xlsx
